import Mathlib

/-!
# Board Minutes Buddy — verification of the text pipeline

A shallow embedding of the text-processing core of
`board_minutes_buddy.py`: the agenda and transcript extractors, the
JSONL example loader, the line classifier of `parse_and_add_content`,
the paragraph renderer `add_formatted_paragraph`, the inline-span
splitter `add_formatted_text_to_paragraph`, and the heading heuristics
`is_heading` / `get_heading_level`.

Strings are modelled as `List Char`.  Python regular expressions are
modelled by executable predicates that implement the match semantics of
the concrete patterns appearing in the source (all of them are anchored
prefix patterns, so `re.match` is a prefix test; greedy and lazy
quantifier behaviour is resolved per pattern and noted at each
definition).  Whitespace and case predicates use the ASCII fragment of
Python's semantics, which is the scope of all inputs considered here.
-/

/-! ## Character classes (ASCII fragment of Python's semantics) -/

/-- Python whitespace (`str.strip`, `\s`): space, tab, LF, CR, VT, FF. -/
def pyIsSpace (c : Char) : Bool :=
  c = ' ' || c = '\t' || c = '\n' || c = '\r' || c = '\x0B' || c = '\x0C'

def isAsciiUpper (c : Char) : Bool := 'A' ≤ c && c ≤ 'Z'

def isAsciiLower (c : Char) : Bool := 'a' ≤ c && c ≤ 'z'

def isAsciiAlpha (c : Char) : Bool := isAsciiUpper c || isAsciiLower c

def isAsciiDigit (c : Char) : Bool := '0' ≤ c && c ≤ '9'

/-- `\w` of the source's regexes: letters, digits, underscore. -/
def isWordChar (c : Char) : Bool := isAsciiAlpha c || isAsciiDigit c || c = '_'

def toLowerAscii (c : Char) : Char :=
  if isAsciiUpper c then Char.ofNat (c.toNat + 32) else c

def toUpperAscii (c : Char) : Char :=
  if isAsciiLower c then Char.ofNat (c.toNat - 32) else c

/-! ## Python `str.strip` and `str.split` -/

/-- `line.strip()`: drop leading and trailing whitespace. -/
def pyStrip (s : List Char) : List Char :=
  ((s.dropWhile pyIsSpace).reverse.dropWhile pyIsSpace).reverse

/-- `line.split()` (no argument): split on whitespace runs, no empty
words.  Fuel-driven so that it evaluates by kernel reduction; the fuel
`s.length` always suffices because every step consumes a character. -/
def pySplitAux : Nat → List Char → List (List Char)
  | 0, _ => []
  | _ + 1, [] => []
  | fuel + 1, c :: rest =>
    if pyIsSpace c then pySplitAux fuel rest
    else (c :: rest.takeWhile (fun d => !pyIsSpace d)) ::
      pySplitAux fuel (rest.dropWhile (fun d => !pyIsSpace d))

def pySplit (s : List Char) : List (List Char) := pySplitAux s.length s

/-! ## Run-collapsing substitutions

`re.sub(r'[ \t]+', ' ', s)` and `re.sub(r'\s+', ' ', s)` both replace
every maximal run of characters of a class by one replacement
character; `collapseRuns p r` is that substitution, with the flag
recording whether the scanner is inside a run. -/

def collapseRunsAux (p : Char → Bool) (r : Char) : Bool → List Char → List Char
  | _, [] => []
  | inRun, c :: rest =>
    if p c then
      (if inRun then collapseRunsAux p r true rest
       else r :: collapseRunsAux p r true rest)
    else c :: collapseRunsAux p r false rest

def collapseRuns (p : Char → Bool) (r : Char) (s : List Char) : List Char :=
  collapseRunsAux p r false s

/-- The class of `[ \t]` in the agenda normalisation. -/
def isSpaceTab (c : Char) : Bool := c = ' ' || c = '\t'

/-- `re.sub(r'\n{3,}', '\n\n', s)`: each maximal run of `n ≥ 3`
newlines becomes two newlines; shorter runs are kept.  The counter
carries the number of pending newlines. -/
def nlEmit (n : Nat) : List Char :=
  if 3 ≤ n then '\n' :: '\n' :: [] else List.replicate n '\n'

def collapseNLAux : Nat → List Char → List Char
  | n, [] => nlEmit n
  | n, c :: rest =>
    if c = '\n' then collapseNLAux (n + 1) rest
    else nlEmit n ++ c :: collapseNLAux 0 rest

def collapseNL (s : List Char) : List Char := collapseNLAux 0 s

/-! ## Joins -/

/-- `' '.join(lines)`. -/
def joinSp : List (List Char) → List Char
  | [] => []
  | [x] => x
  | x :: y :: ys => x ++ ' ' :: joinSp (y :: ys)

/-- `'\n'.join(lines)`. -/
def joinNl : List (List Char) → List Char
  | [] => []
  | [x] => x
  | x :: y :: ys => x ++ '\n' :: joinNl (y :: ys)

/-! ## The agenda extractor (`extract_word_text`)

A source paragraph is its text together with its style name; the
python-docx walk itself is the opaque decoder, so the input is the
paragraph list it yields. -/

structure AgendaPara where
  text : List Char
  style : List Char

/-- Substring test, Python's `key in s` on strings. -/
def isSubstrB (p : List Char) : List Char → Bool
  | [] => p.isEmpty
  | c :: t => p.isPrefixOf (c :: t) || isSubstrB p t

/-- The `#` markers prepended when the style name indicates a heading:
`style.name.lower().startswith('heading')`, with the level read from a
`'heading k' in name` substring test and defaulting to 1. -/
def headingMarks (style : List Char) : List Char :=
  let ls := style.map toLowerAscii
  if ("heading".toList).isPrefixOf ls then
    (if isSubstrB ("heading 1".toList) ls then "# ".toList
     else if isSubstrB ("heading 2".toList) ls then "## ".toList
     else if isSubstrB ("heading 3".toList) ls then "### ".toList
     else "# ".toList)
  else []

/-- The normalisation chain at the end of `extract_word_text`:
collapse space/tab runs, collapse 3+ newline runs to two, strip. -/
def agendaNormalize (s : List Char) : List Char :=
  pyStrip (collapseNL (collapseRuns isSpaceTab ' ' s))

def extract_word_text (paras : List AgendaPara) : List Char :=
  let texts := paras.filterMap (fun p =>
    if (pyStrip p.text).isEmpty then none
    else some (headingMarks p.style ++ pyStrip p.text))
  agendaNormalize (joinNl texts)

/-! ## The transcript extractor (`extract_vtt_text`)

`re.match(r'^WEBVTT|^NOTE|^\d{2}:\d{2}:\d{2}\.\d{3}', line)` is three
anchored prefix alternatives; each is a list of per-character
predicates tested positionally. -/

def matchPreds : List (Char → Bool) → List Char → Bool
  | [], _ => true
  | _ :: _, [] => false
  | p :: ps, c :: cs => p c && matchPreds ps cs

def charPred (a : Char) : Char → Bool := fun c => c = a

def litPreds (s : List Char) : List (Char → Bool) := s.map charPred

/-- `\d{2}:\d{2}:\d{2}\.\d{3}`. -/
def tsPreds : List (Char → Bool) :=
  [isAsciiDigit, isAsciiDigit, charPred ':',
   isAsciiDigit, isAsciiDigit, charPred ':',
   isAsciiDigit, isAsciiDigit, charPred '.',
   isAsciiDigit, isAsciiDigit, isAsciiDigit]

/-- The skip test of the transcript extractor. -/
def vttSkip (l : List Char) : Bool :=
  matchPreds (litPreds ("WEBVTT".toList)) l ||
  matchPreds (litPreds ("NOTE".toList)) l ||
  matchPreds tsPreds l

/-- The kept lines: each input line stripped, discarded when blank or
matching the skip patterns. -/
def vttContentLines (lines : List (List Char)) : List (List Char) :=
  lines.filterMap (fun raw =>
    if pyStrip raw ≠ [] ∧ vttSkip (pyStrip raw) = false
    then some (pyStrip raw) else none)

def extract_vtt_text (lines : List (List Char)) : List Char :=
  pyStrip (collapseRuns pyIsSpace ' ' (joinSp (vttContentLines lines)))

/-! ## The heading heuristic (`is_heading`)

Every pattern below is tried with `re.IGNORECASE`, which the CI
suffix records.  `re.match` is a prefix test, so each predicate
examines only the leading characters the pattern can consume. -/

/-- `re.match(r'^\d+\.\s+', l)`: a digit run, `.`, then whitespace. -/
def matchNumbered (l : List Char) : Bool :=
  let ds := l.takeWhile isAsciiDigit
  match l.drop ds.length with
  | '.' :: c :: _ => !ds.isEmpty && pyIsSpace c
  | _ => false

def isRomanCI (c : Char) : Bool :=
  c = 'I' || c = 'V' || c = 'X' || c = 'i' || c = 'v' || c = 'x'

/-- `re.match(r'^[IVX]+\.\s+', l, re.IGNORECASE)`.  `[IVX]+` is greedy
and `.` is not in the class, so only the maximal roman run can be
followed by the dot. -/
def matchRomanCI (l : List Char) : Bool :=
  let rs := l.takeWhile isRomanCI
  match l.drop rs.length with
  | '.' :: c :: _ => !rs.isEmpty && pyIsSpace c
  | _ => false

/-- `re.match(r'^[A-Z]\.\s+', l, re.IGNORECASE)`. -/
def matchLetterCI : List Char → Bool
  | a :: '.' :: c :: _ => isAsciiAlpha a && pyIsSpace c
  | _ => false

/-- `re.match(r'^[A-Z][A-Z\s]+:?', l, re.IGNORECASE)`.  With the flag,
`[A-Z]` is any letter and `[A-Z\s]` any letter or whitespace; `:?` is
always satisfiable, so the test is: first char a letter, second char a
letter or whitespace. -/
def matchCapsPattern : List Char → Bool
  | a :: b :: _ => isAsciiAlpha a && (isAsciiAlpha b || pyIsSpace b)
  | _ => false

def meetingTerms : List (List Char) :=
  ["REPORT".toList, "MINUTES".toList, "AGENDA".toList,
   "DISCUSSION".toList, "ACTION".toList, "MOTION".toList]

/-- One of the meeting terms appears at the head of `s`, ignoring
case. -/
def termAt (s : List Char) : Bool :=
  meetingTerms.any (fun kw => (kw.map toLowerAscii).isPrefixOf (s.map toLowerAscii))

/-- `re.match(r'^\w+\s*(REPORT|MINUTES|AGENDA|DISCUSSION|ACTION|MOTION)', l,
re.IGNORECASE)`.  Backtracking over the greedy `\w+` means the match
exists iff some split works: either the term starts right after `k`
word characters (`1 ≤ k ≤` maximal run, with `\s*` empty — possible
because the terms are made of word characters), or after the maximal
word run plus the whole following whitespace run (the terms start with
letters, so a partial whitespace skip can never match). -/
def matchWordTermCI (l : List Char) : Bool :=
  let m := (l.takeWhile isWordChar).length
  (List.range m).any (fun i => termAt (l.drop (i + 1))) ||
    (decide (1 ≤ m) && termAt ((l.drop m).dropWhile pyIsSpace))

def sectionKeywords : List (List Char) :=
  ["CALL TO ORDER".toList, "COMMUNICATIONS".toList, "CONSENT AGENDA".toList,
   "ACTION ITEMS".toList, "INFORMATION ITEMS".toList, "ADJOURN".toList]

/-- `re.match(r'^(CALL TO ORDER|...|ADJOURN)', l, re.IGNORECASE)`. -/
def matchSectionKw (l : List Char) : Bool :=
  sectionKeywords.any (fun kw => (kw.map toLowerAscii).isPrefixOf (l.map toLowerAscii))

/-- The title-case fallback: short line, no terminal sentence
punctuation, more than one word, and at least 70% of words starting
with an upper-case letter.  The source compares
`capitalized_words >= len(words) * 0.7` in floating point; for every
word count reachable under the `len < 60` guard the float comparison
coincides with the exact `10 * caps ≥ 7 * words` used here. -/
def titleCaseRule (l : List Char) : Bool :=
  decide (l.length < 60) &&
  !(match l.getLast? with
    | some c => c = '.' || c = '!' || c = '?'
    | none => false) &&
  (let ws := pySplit l
   decide (1 < ws.length) &&
   (let caps := (ws.filter (fun w =>
      match w.head? with
      | some c => isAsciiUpper c
      | none => false)).length
    decide (7 * ws.length ≤ 10 * caps)))

/-- `is_heading` of the source, branch for branch. -/
def is_heading (line : List Char) : Bool :=
  if line.head? = some '#' then false
  else if ('*' :: '*' :: []).isPrefixOf line || ('*' :: []).isPrefixOf line then false
  else if 100 < line.length then false
  else if matchNumbered line || matchRomanCI line || matchLetterCI line ||
          matchCapsPattern line || matchWordTermCI line || matchSectionKw line then true
  else if line.getLast? = some ':' ∧ line.length < 80 then true
  else if titleCaseRule line then true
  else false

/-! ## Heading level assignment (`get_heading_level`)

No `re.IGNORECASE` here: these patterns are case sensitive. -/

/-- `re.match(r'^[1-9]\.\s+', l)`: exactly one digit `1`–`9`. -/
def matchSingleDigit : List Char → Bool
  | d :: '.' :: c :: _ => ('1' ≤ d && d ≤ '9') && pyIsSpace c
  | _ => false

/-- Python `line.isupper()` (ASCII fragment): at least one cased
character and no lower-case character. -/
def pyIsUpper (l : List Char) : Bool :=
  l.any isAsciiAlpha && !(l.any isAsciiLower)

/-- `re.match(r'^[A-Z]\.\s+', l)`, case sensitive. -/
def matchLetterU : List Char → Bool
  | a :: '.' :: c :: _ => isAsciiUpper a && pyIsSpace c
  | _ => false

def isRomanU (c : Char) : Bool := c = 'I' || c = 'V' || c = 'X'

/-- `re.match(r'^[IVX]+\.\s+', l)`, case sensitive. -/
def matchRomanU (l : List Char) : Bool :=
  let rs := l.takeWhile isRomanU
  match l.drop rs.length with
  | '.' :: c :: _ => !rs.isEmpty && pyIsSpace c
  | _ => false

/-- `get_heading_level` of the source. -/
def get_heading_level (line : List Char) : Nat :=
  if matchSingleDigit line || pyIsUpper line then 1
  else if matchLetterU line || matchRomanU line then 3
  else 4

/-! ## The line classifier (`parse_and_add_content`)

The classifier walks the split lines keeping a pending-paragraph
accumulator and an in-list flag, and emits one `RUnit` per document
operation of the source: `doc.add_heading`, `add_list_item`, or
`add_formatted_paragraph` (a paragraph unit keeps the accumulated
lines, which the renderer joins with spaces, and the
`is_list_continuation` argument the source passes at that flush
site). -/

inductive RUnit where
  | heading : Nat → List Char → RUnit
  | listItem : List Char → RUnit
  | para : List (List Char) → Bool → RUnit
deriving DecidableEq

structure PState where
  acc : List (List Char)
  inList : Bool
  out : List RUnit
deriving DecidableEq

/-- `re.match(r'^(#{1,6})\s+(.*)', line)`.  The characters of the `#`
run are not whitespace, so the `\s+` can only start right after the
whole run; hence a match exists iff the run has length 1–6 and is
followed by a whitespace character.  Greedy `\s+` eats the whole
whitespace run, so group 2 starts after it. -/
def mdHeadingInfo (s : List Char) : Option (Nat × List Char) :=
  let k := (s.takeWhile (fun c => c = '#')).length
  if 1 ≤ k ∧ k ≤ 6 then
    match (s.drop k).head? with
    | some c => if pyIsSpace c then some (k, (s.drop k).dropWhile pyIsSpace) else none
    | none => none
  else none

/-- `re.match(r'^[-*+]\s+', line)`. -/
def matchDashBullet : List Char → Bool
  | c :: d :: _ => (c = '-' || c = '*' || c = '+') && pyIsSpace d
  | _ => false

/-- The list-item trigger: bullet marker or numbered marker. -/
def bulletMatch (line : List Char) : Bool :=
  matchDashBullet line || matchNumbered line

/-- The two marker-stripping substitutions applied to a list line:
`re.sub(r'^[-*+]\s+', '', line)` then `re.sub(r'^\d+\.\s+', '', ·)`. -/
def stripListMarker (line : List Char) : List Char :=
  let s1 := if matchDashBullet line then line.tail.dropWhile pyIsSpace else line
  if matchNumbered s1 then
    ((s1.drop (s1.takeWhile isAsciiDigit).length).tail).dropWhile pyIsSpace
  else s1

/-- One loop iteration of `parse_and_add_content`, on the already
stripped line.  Each branch reproduces the source's flush guards: the
accumulator is only flushed when non-empty, and the in-list flag is
only cleared inside those guarded flushes. -/
def parseStepS (st : PState) (line : List Char) : PState :=
  if line = [] then
    (if st.acc = [] then st
     else ⟨[], false, st.out ++ [RUnit.para st.acc st.inList]⟩)
  else if line.head? = some '#' then
    let st1 := if st.acc = [] then st
      else ⟨[], false, st.out ++ [RUnit.para st.acc st.inList]⟩
    match mdHeadingInfo line with
    | some kt => ⟨st1.acc, st1.inList, st1.out ++ [RUnit.heading (min kt.1 3) kt.2]⟩
    | none => st1
  else if bulletMatch line then
    let st1 := if st.acc ≠ [] ∧ st.inList = false then
        ⟨[], st.inList, st.out ++ [RUnit.para st.acc false]⟩
      else st
    ⟨st1.acc, true, st1.out ++ [RUnit.listItem (stripListMarker line)]⟩
  else if is_heading line then
    let st1 := if st.acc = [] then st
      else ⟨[], false, st.out ++ [RUnit.para st.acc st.inList]⟩
    ⟨st1.acc, st1.inList, st1.out ++ [RUnit.heading (get_heading_level line) line]⟩
  else
    let st1 := if st.inList = true ∧ st.acc ≠ [] then
        ⟨[], false, st.out ++ [RUnit.para st.acc true]⟩
      else st
    ⟨st1.acc ++ [line], st1.inList, st1.out⟩

/-- One loop iteration on the raw line (`line = line.strip()` first). -/
def parseStep (st : PState) (raw : List Char) : PState :=
  parseStepS st (pyStrip raw)

def parseGo (st : PState) : List (List Char) → List RUnit
  | [] => st.out ++ (if st.acc = [] then [] else [RUnit.para st.acc st.inList])
  | l :: ls => parseGo (parseStep st l) ls

/-- `parse_and_add_content`, as the sequence of emitted units. -/
def parse_and_add_content (lines : List (List Char)) : List RUnit :=
  parseGo ⟨[], false, []⟩ lines

/-- Input lines one unit accounts for: 1 for headings and list items,
the number of accumulated lines for a paragraph. -/
def unitLines : RUnit → Nat
  | RUnit.heading _ _ => 1
  | RUnit.listItem _ => 1
  | RUnit.para acc _ => acc.length

def outLines (us : List RUnit) : Nat := (us.map unitLines).sum

/-- A raw line the classifier accounts for in some unit: non-blank
after stripping, and not a `#`-line that fails the markdown heading
pattern (the source silently drops those). -/
def accounted (raw : List Char) : Bool :=
  let s := pyStrip raw
  !s.isEmpty && !(decide (s.head? = some '#') && (mdHeadingInfo s).isNone)

/-! ## Inline spans (`add_formatted_text_to_paragraph`)

The bold pass walks `re.finditer(r'\*\*(.*?)\*\*', text)`.  `findDD`
splits a string at its first `**`; a lazy match is the first `**`
followed by the next `**`, and when the first `**` has no closer there
is no later match at all (a later opener would need a `**` the closer
search would have found). -/

inductive SpanStyle where
  | normal
  | bold
  | italic
deriving DecidableEq

abbrev Span := SpanStyle × List Char

/-- Split at the first occurrence of `**`: `some (before, after)`. -/
def findDD : List Char → Option (List Char × List Char)
  | '*' :: '*' :: rest => some ([], rest)
  | c :: rest => (findDD rest).map (fun ab => (c :: ab.1, ab.2))
  | [] => none

/-- One lazy `\*\*(.*?)\*\*` match at the leftmost possible opener:
`some (gap, content, rest)`, or `none` when no complete pair remains
(if the first `**` has no closer, no later opener can have one
either). -/
def ddPair (s : List Char) : Option (List Char × List Char × List Char) :=
  match findDD s with
  | none => none
  | some ga =>
    match findDD ga.2 with
    | none => none
    | some cr => some (ga.1, cr.1, cr.2)

/-- The bold pass: the `(style, text)` parts it appends (gap segments
between matches become normal parts only when non-empty, exactly the
`match.start() > current_pos` guard), and the remaining text after the
last match.  Fuel-driven; each match consumes at least four
characters, so `s.length` fuel suffices. -/
def boldPassAux : Nat → List Char → List Span × List Char
  | 0, s => ([], s)
  | fuel + 1, s =>
    match ddPair s with
    | none => ([], s)
    | some gcr =>
      let pr := boldPassAux fuel gcr.2.2
      ((if gcr.1 = [] then [] else [(SpanStyle.normal, gcr.1)]) ++
        (SpanStyle.bold, gcr.2.1) :: pr.1, pr.2)

/-- The same scan, kept as the raw `(gap, content)` pairs plus
remainder; the specification-side descriptions below are phrased over
this decomposition. -/
def boldSplitAux : Nat → List Char → List (List Char × List Char) × List Char
  | 0, s => ([], s)
  | fuel + 1, s =>
    match ddPair s with
    | none => ([], s)
    | some gcr =>
      let pr := boldSplitAux fuel gcr.2.2
      ((gcr.1, gcr.2.1) :: pr.1, pr.2)

def emitGap (gap : List Char) : List Span :=
  if gap = [] then [] else [(SpanStyle.normal, gap)]

/-- The italic pass: `re.finditer(r'(?<!\*)\*([^*]+?)\*(?!\*)', s)`.
The scanner advances one position at a time; at a `*` whose previous
character is not `*`, the candidate content is the following non-`*`
run, and the match succeeds when that run is non-empty, is followed by
a `*`, and the character after that closer is not `*`.  On success the
scan resumes after the closer (with the closer as previous
character); on failure it advances one character.  Unmatched
characters accumulate into normal gap parts. -/
def italicAux : Nat → Option Char → List Char → List Char → List Span
  | 0, _, gap, s => emitGap (gap ++ s)
  | _ + 1, _, gap, [] => emitGap gap
  | fuel + 1, prev, gap, c :: rest =>
    if c = '*' ∧ prev ≠ some '*' then
      (if rest.takeWhile (fun d => d ≠ '*') ≠ [] ∧
          (rest.drop (rest.takeWhile (fun d => d ≠ '*')).length).head? = some '*' ∧
          (rest.drop (rest.takeWhile (fun d => d ≠ '*')).length).tail.head? ≠ some '*' then
        emitGap gap ++ (SpanStyle.italic, rest.takeWhile (fun d => d ≠ '*')) ::
          italicAux fuel (some '*') []
            (rest.drop (rest.takeWhile (fun d => d ≠ '*')).length).tail
      else italicAux fuel (some c) (gap ++ [c]) rest)
    else italicAux fuel (some c) (gap ++ [c]) rest

def italicPass (s : List Char) : List Span := italicAux (s.length + 1) none [] s

/-- Keep only parts whose content is not whitespace-only
(`if content.strip():` before each `add_run`). -/
def keepSolid (parts : List Span) : List Span :=
  parts.filter (fun sp => !(pyStrip sp.2).isEmpty)

/-- `add_formatted_text_to_paragraph`: bold pass over the whole line,
italic pass over the remaining text after the last bold match only,
dead-branch fallbacks included, then the whitespace-only filter. -/
def add_formatted_text_to_paragraph (text : List Char) : List Span :=
  let br := boldPassAux text.length text
  let parts2 := br.1 ++
    (if br.2 = [] then []
     else (if italicPass br.2 = [] then [(SpanStyle.normal, br.2)] else italicPass br.2))
  let parts3 := if parts2 = [] then [(SpanStyle.normal, text)] else parts2
  keepSolid parts3

/-! ## The paragraph renderer (`add_formatted_paragraph`) -/

/-- `re.sub(r'\*\*(.*?)\*\*', r'\1', s)`: every lazily matched `**`
pair is replaced by its content; text after a `**` with no closer is
left as is. -/
def stripBoldAux : Nat → List Char → List Char
  | 0, s => s
  | fuel + 1, s =>
    match ddPair s with
    | none => s
    | some gcr => gcr.1 ++ gcr.2.1 ++ stripBoldAux fuel gcr.2.2

def stripBoldPairs (s : List Char) : List Char := stripBoldAux s.length s

/-- `re.match(r'^\*\*Action:\*\*', text, re.IGNORECASE)`. -/
def actionMarker (text : List Char) : Bool :=
  (text.take 11).map toLowerAscii = "**action:**".toList

/-- `re.match(r'^\*\*(.*?)\*\*', text)` (case sensitive): the text
starts with `**` and a closing `**` occurs later. -/
def boldLead : List Char → Bool
  | '*' :: '*' :: rest => (findDD rest).isSome
  | _ => false

/-- The section keywords of the renderer branch (a different list from
the `is_heading` one). -/
def renderKeywords : List (List Char) :=
  ["CALL TO ORDER".toList, "COMMUNICATIONS".toList, "CONSENT AGENDA".toList,
   "ACTION ITEM".toList, "DISCUSSION".toList, "INFORMATION".toList,
   "ADJOURN".toList]

/-- `any(keyword in text.upper() for keyword in [...])`. -/
def renderKeywordHit (text : List Char) : Bool :=
  renderKeywords.any (fun kw => isSubstrB kw (text.map toUpperAscii))

/-- The block a flushed paragraph renders to: a bold quote-styled
action block, a level-1 section heading, an italic quote, or a normal
paragraph of inline spans. -/
inductive Block where
  | action : List Char → Block
  | sectionHeading : List Char → Block
  | quote : List Char → Block
  | par : List Span → Block
deriving DecidableEq

/-- `add_formatted_paragraph` branch for branch (its
`is_list_continuation` argument is ignored by the source's body, so it
does not appear here). -/
def add_formatted_paragraph (text : List Char) : Block :=
  if actionMarker text then Block.action (stripBoldPairs text)
  else if boldLead text then
    (if renderKeywordHit text then Block.sectionHeading (stripBoldPairs text)
     else Block.par (add_formatted_text_to_paragraph text))
  else if text.head? = some '>' then
    Block.quote (text.dropWhile (fun c => c = '>' || c = ' '))
  else Block.par (add_formatted_text_to_paragraph text)

/-! ## The example loader (`load_examples_from_jsonl`)

The JSON decoder is an external library; a decoded value is modelled
by `PyVal` and the decoder by an oracle `decode` from stripped line to
optional value (`none` is a `json.JSONDecodeError`, which the inner
handler skips).  The structure check
`"messages" not in example or len(example["messages"]) < 3` can itself
raise a `TypeError` (membership on a number, subscripting a list or
string by a string key, `len` of an unsized value); only
`json.JSONDecodeError` is caught per line, so such an exception
reaches the outer handler, which logs and returns `[]`. -/

inductive PyVal where
  | dict : List (List Char × PyVal) → PyVal
  | list : List PyVal → PyVal
  | str : List Char → PyVal
  | int : Int → PyVal
  | bool : Bool → PyVal
  | null : PyVal

/-- Python `==` between a string and an arbitrary value. -/
def pyEqStr (s : List Char) : PyVal → Bool
  | PyVal.str t => s = t
  | _ => false

/-- `key in v` for a string key: key lookup on a dict, element
equality on a list, substring on a string, `TypeError` otherwise. -/
def pyContainsStr (key : List Char) : PyVal → Option Bool
  | PyVal.dict fields => some (fields.any (fun kv => kv.1 = key))
  | PyVal.list items => some (items.any (pyEqStr key))
  | PyVal.str s => some (isSubstrB key s)
  | _ => none

/-- `v[key]` for a string key: `none` is an exception (`KeyError` on a
dict without the key, `TypeError` on every non-dict). -/
def pyGetItemStr (key : List Char) : PyVal → Option PyVal
  | PyVal.dict fields =>
    (match fields.find? (fun kv => kv.1 = key) with
     | some kv => some kv.2
     | none => none)
  | _ => none

/-- `len(v)`: `none` is a `TypeError` on unsized values. -/
def pyLen : PyVal → Option Nat
  | PyVal.dict f => some f.length
  | PyVal.list l => some l.length
  | PyVal.str s => some s.length
  | _ => none

inductive CheckRes where
  | raised
  | invalid
  | valid
deriving DecidableEq

/-- The structure check on one decoded entry, with Python's
short-circuit `or`. -/
def checkMessages (ex : PyVal) : CheckRes :=
  match pyContainsStr ("messages".toList) ex with
  | none => CheckRes.raised
  | some false => CheckRes.invalid
  | some true =>
    match pyGetItemStr ("messages".toList) ex with
    | none => CheckRes.raised
    | some m =>
      match pyLen m with
      | none => CheckRes.raised
      | some n => if n < 3 then CheckRes.invalid else CheckRes.valid

/-- The line loop: blank lines and decode failures are skipped,
invalid entries are skipped, valid entries are appended, and a raised
structure check aborts the whole call with `[]` (the outer handler's
`return []`). -/
def loadExamplesGo (decode : List Char → Option PyVal) :
    List (List Char) → List PyVal → List PyVal
  | [], acc => acc
  | line :: rest, acc =>
    if pyStrip line = [] then loadExamplesGo decode rest acc
    else
      match decode (pyStrip line) with
      | none => loadExamplesGo decode rest acc
      | some ex =>
        match checkMessages ex with
        | CheckRes.raised => []
        | CheckRes.invalid => loadExamplesGo decode rest acc
        | CheckRes.valid => loadExamplesGo decode rest (acc ++ [ex])

def load_examples_from_jsonl (decode : List Char → Option PyVal)
    (lines : List (List Char)) : List PyVal :=
  loadExamplesGo decode lines []

/-- The per-line keep function describing what a run that never raises
loads: the stripped, decoded, valid entries in order. -/
def exampleKeep (decode : List Char → Option PyVal) (line : List Char) :
    Option PyVal :=
  if pyStrip line = [] then none
  else
    match decode (pyStrip line) with
    | none => none
    | some ex =>
      match checkMessages ex with
      | CheckRes.valid => some ex
      | _ => none

/-! Concrete example-library inputs used by the loader claim: a valid
entry, an object entry with no `messages` field, and decode oracles
pairing stripped lines with decoded values. -/

def exValid : PyVal :=
  PyVal.dict [("messages".toList,
    PyVal.list [PyVal.null, PyVal.null, PyVal.null])]

def exNoMsgs : PyVal := PyVal.dict [("note".toList, PyVal.str ("x".toList))]

/-- Line `"5"` decodes to the number `5`, line `"v"` to a valid
entry. -/
def decodeAbort : List Char → Option PyVal := fun s =>
  if s = "5".toList then some (PyVal.int 5)
  else if s = "v".toList then some exValid else none

/-- Line `"m"` decodes to an object without `messages`, line `"v"` to
a valid entry. -/
def decodeSkip : List Char → Option PyVal := fun s =>
  if s = "m".toList then some exNoMsgs
  else if s = "v".toList then some exValid else none

/-! ## Claim-side and amended descriptions

`isHeadingClaim` transcribes the heading heuristic exactly as the
specification words it; `isHeadingAmended` is the corrected
description.  `inline_spans_claim` and `inline_spans_amended` do the
same for the inline-span pass, phrased over the `(gap, content)`
decomposition `boldSplitAux`. -/

/-- The claim's "entirely upper-case words (optionally followed by
`:`)": after removing an optional trailing colon, only upper-case
letters and spaces, with at least one letter. -/
def allCapsWords (l : List Char) : Bool :=
  let core := if l.getLast? = some ':' then l.dropLast else l
  !core.isEmpty && core.all (fun c => isAsciiUpper c || c = ' ') &&
    core.any isAsciiUpper

/-- The heading heuristic as claim C3 states it: length at most 100
and (outline marker, or entirely upper-case words, or meeting-section
keyword, or trailing colon under 80 characters, or the 70% title-case
rule). -/
def isHeadingClaim (l : List Char) : Bool :=
  decide (l.length ≤ 100) &&
  (matchNumbered l || matchRomanCI l || matchLetterCI l ||
   allCapsWords l ||
   matchSectionKw l ||
   (decide (l.getLast? = some ':') && decide (l.length < 80)) ||
   titleCaseRule l)

/-- The corrected heading heuristic: not a `#` or `*` line, length at
most 100, and any of the six case-insensitive prefix patterns
(numbered, roman, lettered, letter-then-letter-or-space, word then
meeting term, section keyword), the trailing-colon rule, or the
title-case rule. -/
def isHeadingAmended (l : List Char) : Bool :=
  decide (l.head? ≠ some '#') &&
  !(('*' :: []).isPrefixOf l) &&
  decide (l.length ≤ 100) &&
  (matchNumbered l || matchRomanCI l || matchLetterCI l ||
   matchCapsPattern l || matchWordTermCI l || matchSectionKw l ||
   (decide (l.getLast? = some ':') && decide (l.length < 80)) ||
   titleCaseRule l)

/-- Spans of the bold decomposition with normal gaps (no italic pass
on the gaps). -/
def boldParts : List (List Char × List Char) → List Span
  | [] => []
  | gb :: rest => emitGap gb.1 ++ (SpanStyle.bold, gb.2) :: boldParts rest

/-- Spans of the bold decomposition with the italic pass applied to
every non-empty gap segment — the claim's reading. -/
def claimParts : List (List Char × List Char) → List Span
  | [] => []
  | gb :: rest =>
    (if gb.1 = [] then [] else italicPass gb.1) ++
      (SpanStyle.bold, gb.2) :: claimParts rest

/-- Inline spans as claim C4 states them: bold pass first, then an
italic pass over every remaining unmatched segment. -/
def inline_spans_claim (text : List Char) : List Span :=
  let pr := boldSplitAux text.length text
  let core := claimParts pr.1 ++ (if pr.2 = [] then [] else italicPass pr.2)
  keepSolid (if core = [] then [(SpanStyle.normal, text)] else core)

/-- Inline spans as amended: the italic pass runs only on the segment
after the final bold match; earlier unmatched segments stay normal. -/
def inline_spans_amended (text : List Char) : List Span :=
  let pr := boldSplitAux text.length text
  let core := boldParts pr.1 ++ (if pr.2 = [] then [] else italicPass pr.2)
  keepSolid (if core = [] then [(SpanStyle.normal, text)] else core)

/-! # Theorems

General facts about the run-collapsing substitutions, stripping, and
prefix matching, followed by one theorem (plus counterexample and
witness where required) per claim. -/

theorem collapseRunsAux_of_none (p : Char → Bool) (r : Char) :
    ∀ (s : List Char) (b : Bool), (∀ c ∈ s, p c = false) →
      collapseRunsAux p r b s = s
  | [], _, _ => rfl
  | c :: t, b, h => by
    have hc : p c = false := h c (by simp)
    have ht := collapseRunsAux_of_none p r t false
      (fun d hd => h d (List.mem_cons_of_mem _ hd))
    simp [collapseRunsAux, hc, ht]

theorem collapseRunsAux_append_nonp (p : Char → Bool) (r : Char) :
    ∀ (a t : List Char) (b : Bool), a ≠ [] → (∀ c ∈ a, p c = false) →
      collapseRunsAux p r b (a ++ t) = a ++ collapseRunsAux p r false t
  | [], _, _, ha, _ => absurd rfl ha
  | c :: a', t, b, _, h => by
    have hc : p c = false := h c (by simp)
    cases a' with
    | nil => simp [collapseRunsAux, hc]
    | cons d a'' =>
      have := collapseRunsAux_append_nonp p r (d :: a'') t false (by simp)
        (fun x hx => h x (List.mem_cons_of_mem _ hx))
      simpa [collapseRunsAux, hc] using this

theorem collapseRunsAux_run_skip (p : Char → Bool) (r : Char) :
    ∀ (u t : List Char), (∀ c ∈ u, p c = true) →
      collapseRunsAux p r true (u ++ t) = collapseRunsAux p r true t
  | [], _, _ => rfl
  | c :: u', t, h => by
    have hc : p c = true := h c (by simp)
    have := collapseRunsAux_run_skip p r u' t
      (fun x hx => h x (List.mem_cons_of_mem _ hx))
    simp [collapseRunsAux, hc, this]

theorem collapseRuns_sandwich_run (p : Char → Bool) (r : Char)
    (a u q : List Char) (ha : a ≠ []) (hna : ∀ c ∈ a, p c = false)
    (hu : u ≠ []) (hpu : ∀ c ∈ u, p c = true) (hnq : ∀ c ∈ q, p c = false) :
    collapseRuns p r (a ++ u ++ q) = a ++ r :: q := by
  unfold collapseRuns
  rw [List.append_assoc, collapseRunsAux_append_nonp p r a (u ++ q) false ha hna]
  cases u with
  | nil => exact absurd rfl hu
  | cons c u' =>
    have hc : p c = true := hpu c (by simp)
    have hskip := collapseRunsAux_run_skip p r u' q
      (fun x hx => hpu x (List.mem_cons_of_mem _ hx))
    simp [collapseRunsAux, hc, hskip, collapseRunsAux_of_none p r q true hnq]

theorem nlEmit_zero : nlEmit 0 = [] := rfl

theorem nlEmit_one : nlEmit 1 = ['\n'] := rfl

theorem collapseNLAux_append_nonl :
    ∀ (a t : List Char), (∀ c ∈ a, c ≠ '\n') →
      collapseNLAux 0 (a ++ t) = a ++ collapseNLAux 0 t
  | [], _, _ => rfl
  | c :: a', t, h => by
    have hc : c ≠ '\n' := h c (by simp)
    have := collapseNLAux_append_nonl a' t
      (fun x hx => h x (List.mem_cons_of_mem _ hx))
    simp [collapseNLAux, hc, this, nlEmit_zero]

theorem collapseNLAux_of_nonl (s : List Char) (h : ∀ c ∈ s, c ≠ '\n') :
    collapseNLAux 0 s = s := by
  have := collapseNLAux_append_nonl s [] h
  simpa [collapseNLAux, nlEmit_zero] using this

theorem collapseNLAux_replicate :
    ∀ (k n : Nat) (t : List Char),
      collapseNLAux n (List.replicate k '\n' ++ t) = collapseNLAux (n + k) t
  | 0, n, t => by simp
  | k + 1, n, t => by
    have ih := collapseNLAux_replicate k (n + 1) t
    have harith : n + (k + 1) = n + 1 + k := by omega
    rw [harith, ← ih]
    simp [List.replicate_succ, collapseNLAux]

theorem collapseNL_sandwich (a q : List Char) (k : Nat)
    (hna : ∀ c ∈ a, c ≠ '\n') (hq : q ≠ []) (hnq : ∀ c ∈ q, c ≠ '\n') :
    collapseNL (a ++ List.replicate k '\n' ++ q) = a ++ nlEmit k ++ q := by
  unfold collapseNL
  rw [List.append_assoc, collapseNLAux_append_nonl a _ hna,
    collapseNLAux_replicate k 0 q]
  cases q with
  | nil => exact absurd rfl hq
  | cons c q' =>
    have hc : c ≠ '\n' := hnq c (by simp)
    have := collapseNLAux_of_nonl q'
      (fun x hx => hnq x (List.mem_cons_of_mem _ hx))
    simp [collapseNLAux, hc, this]

theorem dropWhile_eq_self_of_head {s : List Char} {c : Char}
    (h : s.head? = some c) (hc : pyIsSpace c = false) :
    s.dropWhile pyIsSpace = s := by
  cases s with
  | nil => simp at h
  | cons a t =>
    have : a = c := by simpa using h
    subst this
    simp [List.dropWhile_cons, hc]

theorem pyStrip_of_ends {s : List Char} {c d : Char}
    (hh : s.head? = some c) (hc : pyIsSpace c = false)
    (hl : s.getLast? = some d) (hd : pyIsSpace d = false) :
    pyStrip s = s := by
  unfold pyStrip
  rw [dropWhile_eq_self_of_head hh hc]
  rw [@dropWhile_eq_self_of_head s.reverse d (by rwa [List.head?_reverse]) hd]
  exact List.reverse_reverse s

theorem pyStrip_sandwich (a mid q : List Char)
    (ha : a ≠ []) (hna : ∀ c ∈ a, pyIsSpace c = false)
    (hq : q ≠ []) (hnq : ∀ c ∈ q, pyIsSpace c = false) :
    pyStrip (a ++ mid ++ q) = a ++ mid ++ q := by
  cases a with
  | nil => exact absurd rfl ha
  | cons x a' =>
    have hh : ((x :: a') ++ mid ++ q).head? = some x := by simp
    have hx : pyIsSpace x = false := hna x (by simp)
    have hgl : ((x :: a') ++ mid ++ q).getLast? = some (q.getLast hq) := by
      rw [List.getLast?_append_of_ne_nil _ hq]
      exact List.getLast?_eq_getLast_of_ne_nil hq
    exact pyStrip_of_ends hh hx hgl (hnq _ (List.getLast_mem hq))

theorem collapseRuns_of_none (p : Char → Bool) (r : Char) (s : List Char)
    (h : ∀ c ∈ s, p c = false) : collapseRuns p r s = s :=
  collapseRunsAux_of_none p r s false h

theorem collapseNL_of_nonl (s : List Char) (h : ∀ c ∈ s, c ≠ '\n') :
    collapseNL s = s :=
  collapseNLAux_of_nonl s h

theorem not_spacetab_of_not_space {c : Char} (h : pyIsSpace c = false) :
    isSpaceTab c = false := by
  simp only [pyIsSpace, Bool.or_eq_false_iff, decide_eq_false_iff_not] at h
  simp only [isSpaceTab, Bool.or_eq_false_iff, decide_eq_false_iff_not]
  exact ⟨h.1.1.1.1.1, h.1.1.1.1.2⟩

theorem ne_nl_of_not_space {c : Char} (h : pyIsSpace c = false) : c ≠ '\n' := by
  simp only [pyIsSpace, Bool.or_eq_false_iff, decide_eq_false_iff_not] at h
  exact h.1.1.1.2

theorem space_of_spacetab {c : Char} (h : isSpaceTab c = true) :
    pyIsSpace c = true := by
  simp only [isSpaceTab, Bool.or_eq_true, decide_eq_true_eq] at h
  rcases h with h | h <;> simp [pyIsSpace, h]

/-- A one-paragraph document with a non-heading style and already
stripped text extracts to the normalisation of that text. -/
theorem extract_single_para (text style : List Char)
    (hm : headingMarks style = []) (ht : pyStrip text = text)
    (hne : text ≠ []) :
    extract_word_text [AgendaPara.mk text style] = agendaNormalize text := by
  have hie : text.isEmpty = false := by
    cases text with
    | nil => exact absurd rfl hne
    | cons c t => rfl
  unfold extract_word_text
  simp only [List.filterMap_cons, List.filterMap_nil, ht, hie, hm]
  rfl

/-- C2: the agenda extractor collapses any run of three or more blank
lines between two non-blank paragraphs to exactly one blank line
(`m ≥ 3` blank lines are `m + 1` newlines, and exactly two remain),
never collapses a single newline between two non-blank paragraphs,
and collapses a run of spaces and tabs — but not newlines — to a
single space; the last clause states the first property for the full
`extract_word_text` on a one-paragraph document carrying the blank
run.  The paragraphs `p`, `q` are non-blank texts (no whitespace
characters). -/
theorem c2_agenda_extraction (p q : List Char) (hp : p ≠ []) (hq : q ≠ [])
    (hps : ∀ c ∈ p, pyIsSpace c = false) (hqs : ∀ c ∈ q, pyIsSpace c = false) :
    (∀ m, 3 ≤ m →
      agendaNormalize (p ++ List.replicate (m + 1) '\n' ++ q) =
        p ++ '\n' :: '\n' :: q) ∧
    agendaNormalize (p ++ ['\n'] ++ q) = p ++ ['\n'] ++ q ∧
    (∀ r, r ≠ [] → (∀ c ∈ r, isSpaceTab c = true) →
      agendaNormalize (p ++ r ++ q) = p ++ [' '] ++ q) ∧
    (∀ m, 3 ≤ m →
      extract_word_text
          [AgendaPara.mk (p ++ List.replicate (m + 1) '\n' ++ q)
            ("Normal".toList)] =
        p ++ '\n' :: '\n' :: q) := by
  have hpst : ∀ c ∈ p, isSpaceTab c = false :=
    fun c hc => not_spacetab_of_not_space (hps c hc)
  have hqst : ∀ c ∈ q, isSpaceTab c = false :=
    fun c hc => not_spacetab_of_not_space (hqs c hc)
  have hpnl : ∀ c ∈ p, c ≠ '\n' := fun c hc => ne_nl_of_not_space (hps c hc)
  have hqnl : ∀ c ∈ q, c ≠ '\n' := fun c hc => ne_nl_of_not_space (hqs c hc)
  have key1 : ∀ m, 3 ≤ m →
      agendaNormalize (p ++ List.replicate (m + 1) '\n' ++ q) =
        p ++ '\n' :: '\n' :: q := by
    intro m hm
    have hst : collapseRuns isSpaceTab ' '
        (p ++ List.replicate (m + 1) '\n' ++ q) =
        p ++ List.replicate (m + 1) '\n' ++ q := by
      apply collapseRuns_of_none
      intro c hc
      simp only [List.mem_append] at hc
      rcases hc with (hc | hc) | hc
      · exact hpst c hc
      · have : c = '\n' := (List.eq_of_mem_replicate hc)
        subst this; decide
      · exact hqst c hc
    have hnl := collapseNL_sandwich p q (m + 1) hpnl hq hqnl
    have hem : nlEmit (m + 1) = '\n' :: '\n' :: [] := by
      unfold nlEmit
      rw [if_pos (by omega)]
    unfold agendaNormalize
    rw [hst, hnl, hem]
    have := pyStrip_sandwich p ('\n' :: '\n' :: []) q hp hps hq hqs
    simpa using this
  refine ⟨key1, ?_, ?_, ?_⟩
  · have hst : collapseRuns isSpaceTab ' ' (p ++ ['\n'] ++ q) =
        p ++ ['\n'] ++ q := by
      apply collapseRuns_of_none
      intro c hc
      simp only [List.mem_append, List.mem_singleton] at hc
      rcases hc with (hc | hc) | hc
      · exact hpst c hc
      · subst hc; decide
      · exact hqst c hc
    have hrep : (['\n'] : List Char) = List.replicate 1 '\n' := by simp
    have hnl := collapseNL_sandwich p q 1 hpnl hq hqnl
    rw [nlEmit_one] at hnl
    unfold agendaNormalize
    rw [hst, hrep, hnl, ← hrep]
    exact pyStrip_sandwich p ['\n'] q hp hps hq hqs
  · intro r hr hrt
    have hst := collapseRuns_sandwich_run isSpaceTab ' ' p r q hp hpst hr hrt hqst
    have hnl : collapseNL (p ++ ' ' :: q) = p ++ ' ' :: q := by
      apply collapseNL_of_nonl
      intro c hc
      simp only [List.mem_append, List.mem_cons] at hc
      rcases hc with hc | hc | hc
      · exact hpnl c hc
      · subst hc; decide
      · exact hqnl c hc
    unfold agendaNormalize
    rw [hst, hnl]
    have := pyStrip_sandwich p [' '] q hp hps hq hqs
    simpa using this
  · intro m hm
    have htext := pyStrip_sandwich p (List.replicate (m + 1) '\n') q hp hps hq hqs
    have hne2 : p ++ List.replicate (m + 1) '\n' ++ q ≠ [] := by
      cases p with
      | nil => exact absurd rfl hp
      | cons a p2 => simp
    rw [extract_single_para _ _ (by decide) htext hne2]
    exact key1 m hm

/-- C2 witness: the three clauses at `p = "a"`, `q = "b"`, a run of
three blank lines, a single newline, and the run `" \t"`. -/
theorem c2_agenda_extraction_witness :
    agendaNormalize ("a".toList ++ List.replicate 4 '\n' ++ "b".toList) =
      "a".toList ++ '\n' :: '\n' :: "b".toList ∧
    agendaNormalize ("a".toList ++ ['\n'] ++ "b".toList) =
      "a".toList ++ ['\n'] ++ "b".toList ∧
    agendaNormalize ("a".toList ++ " \t".toList ++ "b".toList) =
      "a".toList ++ [' '] ++ "b".toList ∧
    extract_word_text
        [AgendaPara.mk ("a".toList ++ List.replicate 4 '\n' ++ "b".toList)
          ("Normal".toList)] =
      "a".toList ++ '\n' :: '\n' :: "b".toList := by
  have h := c2_agenda_extraction ("a".toList) ("b".toList)
    (by decide) (by decide) (by decide) (by decide)
  exact ⟨h.1 3 (by decide), h.2.1, h.2.2.1 (" \t".toList) (by decide) (by decide),
    h.2.2.2 3 (by decide)⟩

/-! Facts about `matchPreds` and the whitespace collapse, feeding the
transcript claim: none of the anchored patterns can match across the
join/collapse/strip pipeline unless it already matched a kept line. -/

theorem matchPreds_nil_false (p0 : Char → Bool) (ps : List (Char → Bool)) :
    matchPreds (p0 :: ps) [] = false := rfl

theorem matchPreds_mono :
    ∀ (ps : List (Char → Bool)) (t u : List Char),
      matchPreds ps t = true → matchPreds ps (t ++ u) = true
  | [], _, _, _ => rfl
  | _ :: _, [], _, h => by simp [matchPreds] at h
  | p :: ps', c :: t', u, h => by
    simp only [matchPreds, Bool.and_eq_true] at h
    simp only [List.cons_append, matchPreds, Bool.and_eq_true]
    exact ⟨h.1, matchPreds_mono ps' t' u h.2⟩

theorem matchPreds_gap :
    ∀ (ps : List (Char → Bool)) (a x : List Char),
      (∀ pr ∈ ps, ∀ c, pr c = true → pyIsSpace c = false) →
      matchPreds ps (a ++ ' ' :: x) = true → matchPreds ps a = true
  | [], _, _, _, _ => rfl
  | p :: ps', [], x, hok, h => by
    simp only [List.nil_append, matchPreds, Bool.and_eq_true] at h
    exact absurd (hok p (by simp) ' ' h.1) (by decide)
  | p :: ps', b :: a', x, hok, h => by
    simp only [List.cons_append, matchPreds, Bool.and_eq_true] at h ⊢
    exact ⟨h.1, matchPreds_gap ps' a' x
      (fun pr hpr => hok pr (List.mem_cons_of_mem _ hpr)) h.2⟩

theorem dropWhile_strip_decomp (s : List Char) :
    ∃ w, s.dropWhile pyIsSpace = pyStrip s ++ w := by
  refine ⟨((s.dropWhile pyIsSpace).reverse.takeWhile pyIsSpace).reverse, ?_⟩
  unfold pyStrip
  rw [← List.reverse_append, List.takeWhile_append_dropWhile, List.reverse_reverse]

theorem dropWhile_head_false (p : Char → Bool) :
    ∀ (s : List Char) {c : Char} {t : List Char},
      s.dropWhile p = c :: t → p c = false
  | [], c, t, h => by simp at h
  | a :: s', c, t, h => by
    by_cases ha : p a = true
    · rw [List.dropWhile_cons, if_pos ha] at h
      exact dropWhile_head_false p s' h
    · rw [List.dropWhile_cons, if_neg ha] at h
      injection h with h1 _
      subst h1
      exact Bool.not_eq_true _ |>.mp ha

theorem pyStrip_head_false {raw : List Char} {c : Char} {t : List Char}
    (h : pyStrip raw = c :: t) : pyIsSpace c = false := by
  obtain ⟨w, hw⟩ := dropWhile_strip_decomp raw
  rw [h, List.cons_append] at hw
  exact dropWhile_head_false pyIsSpace raw hw

theorem dropWhile_collapse (p : Char → Bool) (r : Char) (hr : p r = true) :
    ∀ (s : List Char) (b : Bool),
      (collapseRunsAux p r b s).dropWhile p =
        collapseRunsAux p r false (s.dropWhile p)
  | [], b => by simp [collapseRunsAux]
  | c :: s', b => by
    by_cases hc : p c = true
    · have ih := dropWhile_collapse p r hr s' true
      cases b <;> simp [collapseRunsAux, hc, hr, List.dropWhile_cons, ih]
    · simp [collapseRunsAux, hc, List.dropWhile_cons]

theorem matchPreds_collapse :
    ∀ (s : List Char) (ps : List (Char → Bool)),
      (∀ pr ∈ ps, ∀ c, pr c = true → pyIsSpace c = false) →
      matchPreds ps (collapseRunsAux pyIsSpace ' ' false s) = true →
      matchPreds ps s = true
  | [], ps, _, h => h
  | c :: s', ps, hok, h => by
    by_cases hc : pyIsSpace c = true
    · cases ps with
      | nil => rfl
      | cons pr ps' =>
        exfalso
        rw [show collapseRunsAux pyIsSpace ' ' false (c :: s') =
            ' ' :: collapseRunsAux pyIsSpace ' ' true s' from by
          simp [collapseRunsAux, hc]] at h
        simp only [matchPreds, Bool.and_eq_true] at h
        exact absurd (hok pr (by simp) ' ' h.1) (by decide)
    · cases ps with
      | nil => rfl
      | cons pr ps' =>
        rw [show collapseRunsAux pyIsSpace ' ' false (c :: s') =
            c :: collapseRunsAux pyIsSpace ' ' false s' from by
          simp [collapseRunsAux, hc]] at h
        simp only [matchPreds, Bool.and_eq_true] at h ⊢
        exact ⟨h.1, matchPreds_collapse s' ps'
          (fun pr hpr => hok pr (List.mem_cons_of_mem _ hpr)) h.2⟩

theorem litPreds_ok (s : List Char) (hs : ∀ ch ∈ s, pyIsSpace ch = false) :
    ∀ pr ∈ litPreds s, ∀ c, pr c = true → pyIsSpace c = false := by
  intro pr hpr c hc
  simp only [litPreds, List.mem_map] at hpr
  obtain ⟨ch, hch, rfl⟩ := hpr
  have hcc : c = ch := by simpa [charPred] using hc
  subst hcc
  exact hs _ hch

theorem digit_not_space {c : Char} (h : isAsciiDigit c = true) :
    pyIsSpace c = false := by
  simp only [isAsciiDigit, Bool.and_eq_true, decide_eq_true_eq] at h
  obtain ⟨h1, _⟩ := h
  simp only [pyIsSpace, Bool.or_eq_false_iff, decide_eq_false_iff_not]
  refine ⟨⟨⟨⟨⟨?_, ?_⟩, ?_⟩, ?_⟩, ?_⟩, ?_⟩ <;> rintro rfl <;>
    exact absurd h1 (by decide)

theorem tsPreds_ok :
    ∀ pr ∈ tsPreds, ∀ c, pr c = true → pyIsSpace c = false := by
  intro pr hpr c hc
  simp only [tsPreds, List.mem_cons, List.not_mem_nil, or_false] at hpr
  rcases hpr with rfl | rfl | rfl | rfl | rfl | rfl | rfl | rfl | rfl | rfl |
    rfl | rfl
  · exact digit_not_space hc
  · exact digit_not_space hc
  · have : c = ':' := by simpa [charPred] using hc
    subst this; decide
  · exact digit_not_space hc
  · exact digit_not_space hc
  · have : c = ':' := by simpa [charPred] using hc
    subst this; decide
  · exact digit_not_space hc
  · exact digit_not_space hc
  · have : c = '.' := by simpa [charPred] using hc
    subst this; decide
  · exact digit_not_space hc
  · exact digit_not_space hc
  · exact digit_not_space hc

theorem vttContent_spec (lines : List (List Char)) :
    ∀ l ∈ vttContentLines lines,
      (∃ raw, l = pyStrip raw) ∧ l ≠ [] ∧ vttSkip l = false := by
  intro l hl
  simp only [vttContentLines, List.mem_filterMap] at hl
  obtain ⟨raw, _, hraw⟩ := hl
  by_cases h : pyStrip raw ≠ [] ∧ vttSkip (pyStrip raw) = false
  · rw [if_pos h] at hraw
    cases hraw
    exact ⟨⟨raw, rfl⟩, h.1, h.2⟩
  · rw [if_neg h] at hraw
    cases hraw

theorem vtt_no_pattern (p0 : Char → Bool) (ps' : List (Char → Bool))
    (hok : ∀ pr ∈ p0 :: ps', ∀ c, pr c = true → pyIsSpace c = false)
    (lines : List (List Char))
    (hkept : ∀ l ∈ vttContentLines lines, matchPreds (p0 :: ps') l = false) :
    matchPreds (p0 :: ps') (extract_vtt_text lines) = false := by
  cases hmatch : matchPreds (p0 :: ps') (extract_vtt_text lines) with
  | false => rfl
  | true =>
    exfalso
    unfold extract_vtt_text at hmatch
    have h1 : matchPreds (p0 :: ps')
        ((collapseRuns pyIsSpace ' ' (joinSp (vttContentLines lines))).dropWhile
          pyIsSpace) = true := by
      obtain ⟨w, hw⟩ := dropWhile_strip_decomp
        (collapseRuns pyIsSpace ' ' (joinSp (vttContentLines lines)))
      rw [hw]
      exact matchPreds_mono _ _ _ hmatch
    rw [show collapseRuns pyIsSpace ' ' (joinSp (vttContentLines lines)) =
        collapseRunsAux pyIsSpace ' ' false (joinSp (vttContentLines lines))
        from rfl,
      dropWhile_collapse pyIsSpace ' ' (by decide) _ false] at h1
    have h2 : matchPreds (p0 :: ps')
        ((joinSp (vttContentLines lines)).dropWhile pyIsSpace) = true :=
      matchPreds_collapse _ _ hok h1
    cases hk : vttContentLines lines with
    | nil =>
      rw [hk] at h2
      simp only [joinSp, List.dropWhile_nil] at h2
      exact absurd h2 (by simp [matchPreds])
    | cons l rest =>
      have hspec := vttContent_spec lines l (by rw [hk]; exact List.mem_cons_self _ _)
      obtain ⟨⟨raw, hraw⟩, hne, hskip⟩ := hspec
      cases hl : l with
      | nil => exact hne hl
      | cons c lt =>
        have hpr : pyStrip raw = c :: lt := by rw [← hraw, hl]
        have hcf : pyIsSpace c = false := pyStrip_head_false hpr
        have hkl : matchPreds (p0 :: ps') l = false :=
          hkept l (by rw [hk]; exact List.mem_cons_self _ _)
        rw [hk] at h2
        cases rest with
        | nil =>
          rw [show joinSp [l] = l from rfl, hl, List.dropWhile_cons, if_neg
            (by simp [hcf])] at h2
          rw [hl] at hkl
          exact absurd h2 (by simp [hkl])
        | cons r rs =>
          rw [show joinSp (l :: r :: rs) = l ++ ' ' :: joinSp (r :: rs)
              from rfl, hl, List.cons_append, List.dropWhile_cons, if_neg
              (by simp [hcf]), ← List.cons_append, ← hl] at h2
          have := matchPreds_gap (p0 :: ps') l (joinSp (r :: rs)) hok h2
          exact absurd this (by simp [hkl])

/-- C9: for every transcript file, the extracted text never begins
with the header markers (`WEBVTT`, `NOTE`) or the timestamp pattern —
so it contains no line matching them, the whole extract being a single
line — and every line kept by the filter is non-blank and fails the
skip patterns (header, timestamp and blank lines are discarded).  The
kept lines are then joined with single spaces and whitespace runs are
collapsed, which is the definition of `extract_vtt_text`. -/
theorem c9_transcript_extraction (lines : List (List Char)) :
    vttSkip (extract_vtt_text lines) = false ∧
    ∀ l ∈ vttContentLines lines, l ≠ [] ∧ vttSkip l = false := by
  have hcomp : ∀ l ∈ vttContentLines lines,
      matchPreds (litPreds ("WEBVTT".toList)) l = false ∧
      matchPreds (litPreds ("NOTE".toList)) l = false ∧
      matchPreds tsPreds l = false := by
    intro l hl
    have := (vttContent_spec lines l hl).2.2
    simp only [vttSkip, Bool.or_eq_false_iff] at this
    exact ⟨this.1.1, this.1.2, this.2⟩
  constructor
  · have hW : matchPreds (litPreds ("WEBVTT".toList))
        (extract_vtt_text lines) = false := by
      rw [show litPreds ("WEBVTT".toList) =
          charPred 'W' :: litPreds ("EBVTT".toList) from rfl]
      apply vtt_no_pattern
      · exact litPreds_ok ("WEBVTT".toList) (by decide)
      · intro l hl
        exact (hcomp l hl).1
    have hN : matchPreds (litPreds ("NOTE".toList))
        (extract_vtt_text lines) = false := by
      rw [show litPreds ("NOTE".toList) =
          charPred 'N' :: litPreds ("OTE".toList) from rfl]
      apply vtt_no_pattern
      · exact litPreds_ok ("NOTE".toList) (by decide)
      · intro l hl
        exact (hcomp l hl).2.1
    have hT : matchPreds tsPreds (extract_vtt_text lines) = false := by
      rw [show tsPreds = isAsciiDigit :: tsPreds.tail from rfl]
      apply vtt_no_pattern
      · exact tsPreds_ok
      · intro l hl
        exact (hcomp l hl).2.2
    simp only [vttSkip, Bool.or_eq_false_iff]
    exact ⟨⟨hW, hN⟩, hT⟩
  · intro l hl
    exact (vttContent_spec lines l hl).2

/-- C9 witness: a concrete captions file with a header, a timestamp
line, a blank line and two content lines. -/
theorem c9_transcript_extraction_witness :
    vttSkip (extract_vtt_text
      ["WEBVTT".toList, "00:00:01.000 --> 00:00:02.000".toList,
       "Hello   there".toList, "".toList, "General he said".toList]) = false ∧
    ("Hello   there".toList ≠ [] ∧ vttSkip ("Hello   there".toList) = false) := by
  have h := c9_transcript_extraction
    ["WEBVTT".toList, "00:00:01.000 --> 00:00:02.000".toList,
     "Hello   there".toList, "".toList, "General he said".toList]
  exact ⟨h.1, h.2 ("Hello   there".toList) (by decide)⟩

theorem star_isPrefixOf_of_dd {l : List Char}
    (h : ('*' :: '*' :: []).isPrefixOf l = true) :
    ('*' :: []).isPrefixOf l = true := by
  rw [List.isPrefixOf_iff_prefix] at h ⊢
  exact List.IsPrefix.trans ⟨['*'], rfl⟩ h

/-- C3 counterexample: `"hello world."` starts with neither `#` nor a
formatting marker, yet `is_heading` accepts it (the `IGNORECASE` flag
makes the `^[A-Z][A-Z\s]+:?` "all caps" pattern match any line whose
first two characters are letters), while the claim's description
rejects it: it has no outline marker, is not upper-case words, starts
with no section keyword, does not end with a colon and fails the
title-case rule. -/
theorem c3_heading_heuristic_counterexample :
    ("hello world.".toList).head? ≠ some '#' ∧
    ('*' :: []).isPrefixOf ("hello world.".toList) = false ∧
    is_heading ("hello world.".toList) = true ∧
    isHeadingClaim ("hello world.".toList) = false := by
  refine ⟨by decide, by decide, by decide, by decide⟩

/-- C3 amended: a line is classified as a heading iff it does not
start with `#` or `*`, its length is at most 100, and any of: the
case-insensitive numbered (`^\d+\.\s+`), roman (`^[IVX]+\.\s+`),
lettered (`^[A-Z]\.\s+`) outline patterns; the case-insensitive
`^[A-Z][A-Z\s]+:?` pattern (any letter followed by a letter or
whitespace); the case-insensitive word-then-meeting-term pattern
(`^\w+\s*(REPORT|MINUTES|AGENDA|DISCUSSION|ACTION|MOTION)`); a
case-insensitive meeting-section keyword at the start; a trailing
colon with length under 80; or the short title-case rule (length
under 60, no terminal punctuation, more than one word, at least 70%
of words starting with an upper-case letter). -/
theorem c3_heading_heuristic_amended (l : List Char) :
    is_heading l = isHeadingAmended l := by
  unfold is_heading isHeadingAmended
  by_cases h1 : l.head? = some '#'
  · simp [h1]
  · by_cases h2 : ('*' :: []).isPrefixOf l = true
    · simp [h1, h2]
    · have h2b : ('*' :: []).isPrefixOf l = false := by
        cases hx : ('*' :: []).isPrefixOf l
        · rfl
        · exact absurd hx h2
      have h2d : ('*' :: '*' :: []).isPrefixOf l = false := by
        cases hx : ('*' :: '*' :: []).isPrefixOf l
        · rfl
        · exact absurd (star_isPrefixOf_of_dd hx) h2
      by_cases h3 : 100 < l.length
      · have h3b : ¬(l.length ≤ 100) := by omega
        simp [h1, h2b, h2d, h3, h3b]
      · have h3b : l.length ≤ 100 := by omega
        by_cases h4 : (matchNumbered l || matchRomanCI l || matchLetterCI l ||
            matchCapsPattern l || matchWordTermCI l || matchSectionKw l) = true
        · simp [h1, h2b, h2d, h3, h3b, h4]
        · have h4b := Bool.not_eq_true _ |>.mp h4
          by_cases h5 : l.getLast? = some ':' ∧ l.length < 80
          · simp [h1, h2b, h2d, h3, h3b, h4b, h5.1, h5.2]
          · by_cases h6 : titleCaseRule l = true
            · by_cases h5a : l.getLast? = some ':'
              · have h5b : ¬(l.length < 80) := fun hb => h5 ⟨h5a, hb⟩
                simp [h1, h2b, h2d, h3, h3b, h4b, h5, h5a, h5b, h6]
              · simp [h1, h2b, h2d, h3, h3b, h4b, h5, h5a, h6]
            · have h6b := Bool.not_eq_true _ |>.mp h6
              by_cases h5a : l.getLast? = some ':'
              · have h5b : ¬(l.length < 80) := fun hb => h5 ⟨h5a, hb⟩
                simp [h1, h2b, h2d, h3, h3b, h4b, h5, h5a, h5b, h6b]
              · simp [h1, h2b, h2d, h3, h3b, h4b, h5, h5a, h6b]

/-- C6: for a line classified as a non-markdown heading, the level
assignment reads its conditions in priority order, as the claim lists
them: a single-digit numbered marker (`^[1-9]\.\s+`) or a fully
upper-case line (Python `isupper`) gives level 1; otherwise a
case-sensitive lettered (`^[A-Z]\.\s+`) or roman (`^[IVX]+\.\s+`)
marker gives level 3; any other line gets level 4, which lies outside
the normal 1–3 range. -/
theorem c6_heading_level (l : List Char) (_hh : is_heading l = true) :
    ((matchSingleDigit l || pyIsUpper l) = true → get_heading_level l = 1) ∧
    ((matchSingleDigit l || pyIsUpper l) = false →
      (matchLetterU l || matchRomanU l) = true → get_heading_level l = 3) ∧
    ((matchSingleDigit l || pyIsUpper l) = false →
      (matchLetterU l || matchRomanU l) = false →
      ¬(1 ≤ get_heading_level l ∧ get_heading_level l ≤ 3)) := by
  unfold get_heading_level
  refine ⟨?_, ?_, ?_⟩
  · intro h
    simp [h]
  · intro h1 h2
    simp [h1, h2]
  · intro h1 h2
    simp [h1, h2]

/-- C6 witness: `"A. Foo"` is a non-markdown heading with a lettered
marker and is not fully upper-case, so its level is 3. -/
theorem c6_heading_level_witness : get_heading_level ("A. Foo".toList) = 3 :=
  (c6_heading_level ("A. Foo".toList) (by decide)).2.1 (by decide) (by decide)

/-! Accounting facts about the classifier. -/

theorem outLines_append (a b : List RUnit) :
    outLines (a ++ b) = outLines a + outLines b := by
  simp [outLines]

theorem stepS_blank (st : PState) :
    parseStepS st [] =
      if st.acc = [] then st
      else ⟨[], false, st.out ++ [RUnit.para st.acc st.inList]⟩ := by
  unfold parseStepS
  rw [if_pos rfl]

theorem stepS_hash_some (st : PState) (line : List Char) (kt : Nat × List Char)
    (h0 : line ≠ []) (h1 : line.head? = some '#')
    (h2 : mdHeadingInfo line = some kt) :
    parseStepS st line =
      if st.acc = [] then
        ⟨[], st.inList, st.out ++ [RUnit.heading (min kt.1 3) kt.2]⟩
      else
        ⟨[], false, st.out ++ [RUnit.para st.acc st.inList] ++
          [RUnit.heading (min kt.1 3) kt.2]⟩ := by
  unfold parseStepS
  rw [if_neg h0, if_pos h1, h2]
  by_cases hacc : st.acc = [] <;> simp [hacc]

theorem stepS_hash_none (st : PState) (line : List Char)
    (h0 : line ≠ []) (h1 : line.head? = some '#')
    (h2 : mdHeadingInfo line = none) :
    parseStepS st line =
      if st.acc = [] then st
      else ⟨[], false, st.out ++ [RUnit.para st.acc st.inList]⟩ := by
  unfold parseStepS
  rw [if_neg h0, if_pos h1, h2]

theorem stepS_bullet (st : PState) (line : List Char)
    (h0 : line ≠ []) (h1 : line.head? ≠ some '#')
    (h2 : bulletMatch line = true) :
    parseStepS st line =
      if st.acc ≠ [] ∧ st.inList = false then
        ⟨[], true, st.out ++ [RUnit.para st.acc false] ++
          [RUnit.listItem (stripListMarker line)]⟩
      else ⟨st.acc, true, st.out ++ [RUnit.listItem (stripListMarker line)]⟩ := by
  unfold parseStepS
  rw [if_neg h0, if_neg h1, if_pos (by simp [h2])]
  by_cases hc : st.acc ≠ [] ∧ st.inList = false <;> simp [hc]

theorem stepS_heading (st : PState) (line : List Char)
    (h0 : line ≠ []) (h1 : line.head? ≠ some '#')
    (h2 : bulletMatch line = false) (h3 : is_heading line = true) :
    parseStepS st line =
      if st.acc = [] then
        ⟨[], st.inList, st.out ++ [RUnit.heading (get_heading_level line) line]⟩
      else
        ⟨[], false, st.out ++ [RUnit.para st.acc st.inList] ++
          [RUnit.heading (get_heading_level line) line]⟩ := by
  unfold parseStepS
  rw [if_neg h0, if_neg h1, if_neg (by simp [h2]), if_pos (by simp [h3])]
  by_cases hacc : st.acc = [] <;> simp [hacc]

theorem stepS_text (st : PState) (line : List Char)
    (h0 : line ≠ []) (h1 : line.head? ≠ some '#')
    (h2 : bulletMatch line = false) (h3 : is_heading line = false) :
    parseStepS st line =
      if st.inList = true ∧ st.acc ≠ [] then
        ⟨[line], false, st.out ++ [RUnit.para st.acc true]⟩
      else ⟨st.acc ++ [line], st.inList, st.out⟩ := by
  unfold parseStepS
  rw [if_neg h0, if_neg h1, if_neg (by simp [h2]), if_neg (by simp [h3])]
  by_cases hc : st.inList = true ∧ st.acc ≠ [] <;> simp [hc]

theorem parseStep_eq (st : PState) (raw : List Char) :
    parseStep st raw = parseStepS st (pyStrip raw) := rfl

theorem parseStep_count (st : PState) (raw : List Char) :
    outLines (parseStep st raw).out + (parseStep st raw).acc.length =
    outLines st.out + st.acc.length +
      (if accounted raw = true then 1 else 0) := by
  rw [parseStep_eq]
  by_cases hb : pyStrip raw = []
  · have ha : accounted raw = false := by simp [accounted, hb]
    rw [hb, stepS_blank, ha]
    by_cases hacc : st.acc = [] <;>
      simp [hacc, outLines_append, outLines, unitLines]
  · by_cases hh : (pyStrip raw).head? = some '#'
    · cases hmd : mdHeadingInfo (pyStrip raw) with
      | some kt =>
        have ha : accounted raw = true := by simp [accounted, hb, hh, hmd]
        rw [stepS_hash_some st _ kt hb hh hmd, ha]
        by_cases hacc : st.acc = [] <;>
          simp [hacc, outLines_append, outLines, unitLines] <;> omega
      | none =>
        have ha : accounted raw = false := by simp [accounted, hb, hh, hmd]
        rw [stepS_hash_none st _ hb hh hmd, ha]
        by_cases hacc : st.acc = [] <;>
          simp [hacc, outLines_append, outLines, unitLines]
    · have ha : accounted raw = true := by simp [accounted, hb, hh]
      by_cases hbul : bulletMatch (pyStrip raw) = true
      · rw [stepS_bullet st _ hb hh hbul, ha]
        by_cases hfl : st.acc ≠ [] ∧ st.inList = false <;>
          simp [hfl, outLines_append, outLines, unitLines] <;> omega
      · have hbul' : bulletMatch (pyStrip raw) = false :=
          Bool.not_eq_true _ |>.mp hbul
        by_cases hhd : is_heading (pyStrip raw) = true
        · rw [stepS_heading st _ hb hh hbul' hhd, ha]
          by_cases hacc : st.acc = [] <;>
            simp [hacc, outLines_append, outLines, unitLines] <;> omega
        · have hhd' : is_heading (pyStrip raw) = false :=
            Bool.not_eq_true _ |>.mp hhd
          rw [stepS_text st _ hb hh hbul' hhd', ha]
          by_cases hfl : st.inList = true ∧ st.acc ≠ [] <;>
            simp [hfl, outLines_append, outLines, unitLines] <;> omega

theorem parseGo_count :
    ∀ (ls : List (List Char)) (st : PState),
      outLines (parseGo st ls) =
        outLines st.out + st.acc.length +
          (ls.filter (fun l => accounted l)).length
  | [], st => by
    unfold parseGo
    by_cases h : st.acc = []
    · simp [h, outLines_append]
    · simp [h, outLines_append, outLines, unitLines]
  | l :: ls, st => by
    unfold parseGo
    rw [parseGo_count ls (parseStep st l)]
    have hstep := parseStep_count st l
    by_cases ha : accounted l = true
    · simp [ha] at hstep
      simp [List.filter_cons, ha]
      omega
    · have ha' := Bool.not_eq_true _ |>.mp ha
      simp [ha'] at hstep
      simp [List.filter_cons, ha']
      omega

theorem pos_of_mem_append_para {out : List RUnit} {acc : List (List Char)}
    {b : Bool} (h : ∀ u ∈ out, 0 < unitLines u) (hacc : acc ≠ []) :
    ∀ u ∈ out ++ [RUnit.para acc b], 0 < unitLines u := by
  intro u hu
  rcases List.mem_append.mp hu with hu | hu
  · exact h u hu
  · rw [List.mem_singleton.mp hu]
    simpa [unitLines] using List.length_pos.mpr hacc

theorem pos_of_mem_append_one {out : List RUnit} {v : RUnit}
    (h : ∀ u ∈ out, 0 < unitLines u) (hv : 0 < unitLines v) :
    ∀ u ∈ out ++ [v], 0 < unitLines u := by
  intro u hu
  rcases List.mem_append.mp hu with hu | hu
  · exact h u hu
  · rw [List.mem_singleton.mp hu]
    exact hv

theorem parseStep_pos (st : PState) (raw : List Char)
    (h : ∀ u ∈ st.out, 0 < unitLines u) :
    ∀ u ∈ (parseStep st raw).out, 0 < unitLines u := by
  rw [parseStep_eq]
  by_cases hb : pyStrip raw = []
  · rw [hb, stepS_blank]
    by_cases hacc : st.acc = []
    · simpa [hacc] using h
    · rw [if_neg hacc]
      exact pos_of_mem_append_para h hacc
  · by_cases hh : (pyStrip raw).head? = some '#'
    · cases hmd : mdHeadingInfo (pyStrip raw) with
      | some kt =>
        rw [stepS_hash_some st _ kt hb hh hmd]
        by_cases hacc : st.acc = []
        · rw [if_pos hacc]
          exact pos_of_mem_append_one h (by simp [unitLines])
        · rw [if_neg hacc]
          exact pos_of_mem_append_one (pos_of_mem_append_para h hacc)
            (by simp [unitLines])
      | none =>
        rw [stepS_hash_none st _ hb hh hmd]
        by_cases hacc : st.acc = []
        · simpa [hacc] using h
        · rw [if_neg hacc]
          exact pos_of_mem_append_para h hacc
    · by_cases hbul : bulletMatch (pyStrip raw) = true
      · rw [stepS_bullet st _ hb hh hbul]
        by_cases hfl : st.acc ≠ [] ∧ st.inList = false
        · rw [if_pos hfl]
          exact pos_of_mem_append_one (pos_of_mem_append_para h hfl.1)
            (by simp [unitLines])
        · rw [if_neg hfl]
          exact pos_of_mem_append_one h (by simp [unitLines])
      · have hbul' : bulletMatch (pyStrip raw) = false :=
          Bool.not_eq_true _ |>.mp hbul
        by_cases hhd : is_heading (pyStrip raw) = true
        · rw [stepS_heading st _ hb hh hbul' hhd]
          by_cases hacc : st.acc = []
          · rw [if_pos hacc]
            exact pos_of_mem_append_one h (by simp [unitLines])
          · rw [if_neg hacc]
            exact pos_of_mem_append_one (pos_of_mem_append_para h hacc)
              (by simp [unitLines])
        · have hhd' : is_heading (pyStrip raw) = false :=
            Bool.not_eq_true _ |>.mp hhd
          rw [stepS_text st _ hb hh hbul' hhd']
          by_cases hfl : st.inList = true ∧ st.acc ≠ []
          · rw [if_pos hfl]
            exact pos_of_mem_append_para h hfl.2
          · rw [if_neg hfl]
            exact h

theorem parseGo_pos :
    ∀ (ls : List (List Char)) (st : PState),
      (∀ u ∈ st.out, 0 < unitLines u) →
      ∀ u ∈ parseGo st ls, 0 < unitLines u
  | [], st, h => by
    unfold parseGo
    by_cases hacc : st.acc = []
    · simpa [hacc] using h
    · rw [if_neg hacc]
      exact pos_of_mem_append_para h hacc
  | l :: ls, st, h => by
    unfold parseGo
    exact parseGo_pos ls (parseStep st l) (parseStep_pos st l h)

/-- C1 counterexample: the line `"#foo"` is non-blank, but it starts
with `#` and fails the markdown heading pattern
(`^(#{1,6})\s+(.*)`), so the classifier flushes the accumulator and
then emits nothing for it: the one non-blank input line is accounted
for by no unit at all. -/
theorem c1_line_accounting_counterexample :
    parse_and_add_content ["#foo".toList] = [] ∧
    (["#foo".toList].filter (fun l => !(pyStrip l).isEmpty)).length = 1 ∧
    outLines (parse_and_add_content ["#foo".toList]) = 0 := by
  refine ⟨by decide, by decide, by decide⟩

/-- C1 amended: every non-blank line except a `#`-line failing the
markdown heading pattern is accounted for in exactly one emitted unit
— the total line count across units (1 per heading or list item, the
accumulated-line count per paragraph) equals the number of such lines
— and every emitted unit accounts for at least one line, so blank
lines (and only the dropped `#`-lines besides them) never produce
units. -/
theorem c1_line_accounting_amended (lines : List (List Char)) :
    outLines (parse_and_add_content lines) =
      (lines.filter (fun l => accounted l)).length ∧
    ∀ u ∈ parse_and_add_content lines, 0 < unitLines u := by
  constructor
  · have h := parseGo_count lines ⟨[], false, []⟩
    simpa [parse_and_add_content, outLines] using h
  · exact parseGo_pos lines ⟨[], false, []⟩ (by simp)

/-- C1 witness: a mixed input — heading, blank, list item, prose
accumulated over two lines — has 4 accounted lines spread over the
emitted units, each unit non-empty. -/
theorem c1_line_accounting_witness :
    outLines (parse_and_add_content
      ["# T".toList, "".toList, "- i".toList, "aa".toList, "bb".toList]) =
      (["# T".toList, "".toList, "- i".toList, "aa".toList, "bb".toList].filter
        (fun l => accounted l)).length ∧
    0 < unitLines (RUnit.listItem ("i".toList)) := by
  have h := c1_line_accounting_amended
    ["# T".toList, "".toList, "- i".toList, "aa".toList, "bb".toList]
  refine ⟨h.1, h.2 (RUnit.listItem ("i".toList)) (by decide)⟩

/-- C5 counterexample: after the list item `"- a"`, the two
consecutive prose lines `"x"` and `"y"` do not accumulate into a
single paragraph: the first is appended while the in-list flag stays
set (the flush needs a non-empty accumulator, which a list item never
leaves), and the second line's arrival flushes `"x"` alone as a
list-mode paragraph, so the output holds two one-line paragraphs. -/
theorem c5_list_transition_counterexample :
    parse_and_add_content ["- a".toList, "x".toList, "y".toList] =
      [RUnit.listItem ("a".toList), RUnit.para ["x".toList] true,
       RUnit.para ["y".toList] false] ∧
    parse_and_add_content ["- a".toList, "x".toList, "y".toList] ≠
      [RUnit.listItem ("a".toList),
       RUnit.para ["x".toList, "y".toList] false] := by
  refine ⟨by decide, by decide⟩

/-- C5 amended: on a non-blank, non-heading, non-list line in list
mode, the classifier flushes the pending paragraph and clears the
in-list flag only when the accumulator is non-empty — and the flushed
paragraph is passed in list mode (flag `true`); since a list item
leaves the accumulator empty, the first prose line after a list is
appended with the flag still set, and only a later line triggers the
flush, so consecutive prose lines after a list end up in separate
paragraphs. -/
theorem c5_list_transition_amended (st : PState) (raw : List Char)
    (h0 : pyStrip raw ≠ []) (h1 : (pyStrip raw).head? ≠ some '#')
    (h2 : bulletMatch (pyStrip raw) = false)
    (h3 : is_heading (pyStrip raw) = false) :
    parseStep st raw =
      if st.inList = true ∧ st.acc ≠ [] then
        ⟨[pyStrip raw], false, st.out ++ [RUnit.para st.acc true]⟩
      else ⟨st.acc ++ [pyStrip raw], st.inList, st.out⟩ := by
  rw [parseStep_eq]
  exact stepS_text st (pyStrip raw) h0 h1 h2 h3

/-- C5 witness: the flush step at a concrete state — in list mode
with `"x"` pending, the prose line `"y"` flushes `["x"]` as a
list-mode paragraph, clears the flag and starts a new accumulator. -/
theorem c5_list_transition_witness :
    parseStep ⟨["x".toList], true, [RUnit.listItem ("a".toList)]⟩
        ("y".toList) =
      ⟨["y".toList], false,
       [RUnit.listItem ("a".toList), RUnit.para ["x".toList] true]⟩ := by
  have h := c5_list_transition_amended
    ⟨["x".toList], true, [RUnit.listItem ("a".toList)]⟩ ("y".toList)
    (by decide) (by decide) (by decide) (by decide)
  exact h.trans (by decide)

/-- C7: a line whose stripped text starts with a run of `k` `#`
characters, `1 ≤ k ≤ 6`, followed by a space, flushes the pending
accumulator and emits a heading of level `min k 3` whose text is the
remainder after the marker and the whitespace run; and
`"## Example Heading"` yields a level-2 heading `"Example Heading"`. -/
theorem c7_markdown_heading :
    (∀ (st : PState) (raw : List Char) (k : Nat),
      k = ((pyStrip raw).takeWhile (fun c => c = '#')).length →
      1 ≤ k → k ≤ 6 → ((pyStrip raw).drop k).head? = some ' ' →
      parseStep st raw =
        if st.acc = [] then
          ⟨[], st.inList, st.out ++
            [RUnit.heading (min k 3) (((pyStrip raw).drop k).dropWhile pyIsSpace)]⟩
        else
          ⟨[], false, st.out ++ [RUnit.para st.acc st.inList] ++
            [RUnit.heading (min k 3)
              (((pyStrip raw).drop k).dropWhile pyIsSpace)]⟩) ∧
    parse_and_add_content ["## Example Heading".toList] =
      [RUnit.heading 2 ("Example Heading".toList)] := by
  constructor
  · intro st raw k hk h1 h6 hsp
    have hne : pyStrip raw ≠ [] := by
      intro hnil
      rw [hnil] at hk
      simp at hk
      omega
    have hhead : (pyStrip raw).head? = some '#' := by
      cases hs : pyStrip raw with
      | nil => exact absurd hs hne
      | cons c t =>
        by_cases hc : c = '#'
        · rw [hc]
          rfl
        · rw [hs] at hk
          rw [List.takeWhile_cons, if_neg (by simpa using hc)] at hk
          simp at hk
          omega
    have hmd : mdHeadingInfo (pyStrip raw) =
        some (k, ((pyStrip raw).drop k).dropWhile pyIsSpace) := by
      unfold mdHeadingInfo
      rw [← hk, if_pos ⟨h1, h6⟩, hsp]
      rfl
    rw [parseStep_eq]
    exact stepS_hash_some st (pyStrip raw)
      (k, ((pyStrip raw).drop k).dropWhile pyIsSpace) hne hhead hmd
  · decide

/-- C7 witness: the step theorem applied at a state with a pending
paragraph and the line `"## T"` — the paragraph is flushed, then a
level-2 heading `"T"` is emitted. -/
theorem c7_markdown_heading_witness :
    parseStep ⟨["x".toList], true, []⟩ ("## T".toList) =
      ⟨[], false, [RUnit.para ["x".toList] true,
        RUnit.heading 2 ("T".toList)]⟩ := by
  have h := c7_markdown_heading.1 ⟨["x".toList], true, []⟩ ("## T".toList) 2
    (by decide) (by decide) (by decide) (by decide)
  exact h.trans (by decide)

theorem boldPass_split :
    ∀ (fuel : Nat) (s : List Char),
      boldPassAux fuel s =
        (boldParts (boldSplitAux fuel s).1, (boldSplitAux fuel s).2)
  | 0, _ => rfl
  | fuel + 1, s => by
    unfold boldPassAux boldSplitAux
    cases h1 : ddPair s with
    | none => simp [boldParts]
    | some gcr =>
      have ih := boldPass_split fuel gcr.2.2
      simp [ih, boldParts, emitGap]

theorem italicAux_ne_nil :
    ∀ (fuel : Nat) (prev : Option Char) (gap s : List Char),
      gap ≠ [] ∨ s ≠ [] → italicAux fuel prev gap s ≠ []
  | 0, _, gap, s, h => by
    unfold italicAux
    have hgs : gap ++ s ≠ [] := by
      rcases h with h | h <;> simp [h]
    simp [emitGap, hgs]
  | _ + 1, _, gap, [], h => by
    unfold italicAux
    have hg : gap ≠ [] := by
      rcases h with h | h
      · exact h
      · exact absurd rfl h
    simp [emitGap, hg]
  | fuel + 1, prev, gap, c :: rest, _ => by
    unfold italicAux
    by_cases hc : c = '*' ∧ prev ≠ some '*'
    · rw [if_pos hc]
      by_cases hm : rest.takeWhile (fun d => d ≠ '*') ≠ [] ∧
          (rest.drop (rest.takeWhile (fun d => d ≠ '*')).length).head? = some '*' ∧
          (rest.drop (rest.takeWhile (fun d => d ≠ '*')).length).tail.head? ≠
            some '*'
      · rw [if_pos hm]
        simp [emitGap]
      · rw [if_neg hm]
        exact italicAux_ne_nil fuel (some c) (gap ++ [c]) rest (Or.inl (by simp))
    · rw [if_neg hc]
      exact italicAux_ne_nil fuel (some c) (gap ++ [c]) rest (Or.inl (by simp))

theorem italicPass_ne_nil (s : List Char) (h : s ≠ []) : italicPass s ≠ [] :=
  italicAux_ne_nil (s.length + 1) none [] s (Or.inr h)

/-- C4 counterexample: in `"*a* **b**"` the unmatched segment `"*a* "`
lies before the bold match, so the source's italic pass — which only
runs on the text after the last bold match — never sees it and it
stays a normal span with its markers; the claim's per-segment italic
pass would produce an italic span `"a"` instead. -/
theorem c4_inline_spans_counterexample :
    add_formatted_text_to_paragraph ("*a* **b**".toList) =
      [(SpanStyle.normal, "*a* ".toList), (SpanStyle.bold, "b".toList)] ∧
    inline_spans_claim ("*a* **b**".toList) =
      [(SpanStyle.italic, "a".toList), (SpanStyle.bold, "b".toList)] ∧
    add_formatted_text_to_paragraph ("*a* **b**".toList) ≠
      inline_spans_claim ("*a* **b**".toList) := by
  refine ⟨by decide, by decide, by decide⟩

/-- C4 amended: the span splitter equals the pipeline that extracts
bold spans left to right across the whole line, turns the unmatched
segments between and before bold matches into normal spans, runs the
italic pass only on the remaining segment after the final bold match
(the whole line when there is no bold match), and then drops spans
with whitespace-only content. -/
theorem c4_inline_spans_amended (text : List Char) :
    add_formatted_text_to_paragraph text = inline_spans_amended text := by
  unfold add_formatted_text_to_paragraph inline_spans_amended
  rw [boldPass_split text.length text]
  by_cases hrem : (boldSplitAux text.length text).2 = []
  · simp [hrem]
  · have hip := italicPass_ne_nil _ hrem
    simp [hrem, hip]

/-- C8 counterexample: a paragraph starting with the emphasized
`Action:` marker but containing a single-asterisk italic span keeps
those single markers in the rendered action block — only the paired
double markers are stripped — so not *all* emphasis markup is
removed. -/
theorem c8_action_block_counterexample :
    add_formatted_paragraph ("**Action:** fix *this*".toList) =
      Block.action ("Action: fix *this*".toList) ∧
    '*' ∈ "Action: fix *this*".toList := by
  refine ⟨by decide, by decide⟩

/-- C8 amended: every flushed paragraph whose text begins with the
emphasized `Action:` marker (matched case-insensitively) is rendered
as the single distinguished bold, quote-styled action block, with each
paired double-emphasis marker replaced by its content — single
markers and unpaired `**` are kept; in particular
`"**Action:** Approve the budget."` yields one action block with text
`"Action: Approve the budget."` containing no residual emphasis
markers. -/
theorem c8_action_block (text : List Char) (h : actionMarker text = true) :
    add_formatted_paragraph text = Block.action (stripBoldPairs text) := by
  unfold add_formatted_paragraph
  rw [if_pos h]

/-- C8 witness: the theorem applied to the claim's own example (and
the absence of emphasis markers in its output), plus an upper-case
variant showing the case-insensitive match. -/
theorem c8_action_block_witness :
    add_formatted_paragraph ("**Action:** Approve the budget.".toList) =
      Block.action ("Action: Approve the budget.".toList) ∧
    '*' ∉ "Action: Approve the budget.".toList ∧
    add_formatted_paragraph ("**ACTION:** Go.".toList) =
      Block.action ("ACTION: Go.".toList) := by
  refine ⟨?_, by decide, ?_⟩
  · exact (c8_action_block ("**Action:** Approve the budget.".toList)
      (by decide)).trans (by decide)
  · exact (c8_action_block ("**ACTION:** Go.".toList)
      (by decide)).trans (by decide)

theorem loadGo_noraise (decode : List Char → Option PyVal) :
    ∀ (lines : List (List Char)) (acc : List PyVal),
      (∀ l ∈ lines, ∀ ex, decode (pyStrip l) = some ex →
        checkMessages ex ≠ CheckRes.raised) →
      loadExamplesGo decode lines acc =
        acc ++ lines.filterMap (exampleKeep decode)
  | [], acc, _ => by simp [loadExamplesGo]
  | line :: rest, acc, h => by
    unfold loadExamplesGo
    have hrest := fun l hl => h l (List.mem_cons_of_mem _ hl)
    by_cases hs : pyStrip line = []
    · rw [if_pos hs, loadGo_noraise decode rest acc hrest]
      simp [List.filterMap_cons, exampleKeep, hs]
    · rw [if_neg hs]
      cases hd : decode (pyStrip line) with
      | none =>
        rw [loadGo_noraise decode rest acc hrest]
        simp [List.filterMap_cons, exampleKeep, hs, hd]
      | some ex =>
        cases hc : checkMessages ex with
        | raised => exact absurd hc (h line (List.mem_cons_self _ _) ex hd)
        | invalid =>
          simp only [hc]
          rw [loadGo_noraise decode rest acc hrest]
          simp [List.filterMap_cons, exampleKeep, hs, hd, hc]
        | valid =>
          simp only [hc]
          rw [loadGo_noraise decode rest (acc ++ [ex]) hrest]
          simp [List.filterMap_cons, exampleKeep, hs, hd, hc]

/-- C10 counterexample: the library line `"5"` is valid JSON with no
`messages` field, so the claim says it is skipped and the following
valid entry still loads; but the membership test `"messages" in 5`
raises a `TypeError` that only the outer handler catches, so the
loader aborts and returns the empty list — the subsequent valid entry
is lost. -/
theorem c10_example_loader_counterexample :
    load_examples_from_jsonl decodeAbort ["5".toList, "v".toList] = [] ∧
    decodeAbort (pyStrip ("v".toList)) = some exValid ∧
    checkMessages exValid = CheckRes.valid ∧
    exValid ∉ load_examples_from_jsonl decodeAbort ["5".toList, "v".toList] := by
  have h1 : load_examples_from_jsonl decodeAbort
      ["5".toList, "v".toList] = [] := rfl
  refine ⟨h1, rfl, rfl, ?_⟩
  rw [h1]
  exact List.not_mem_nil _

/-- C10 amended: provided no decoded entry makes the structure check
raise (for instance, every decoded line is a JSON object whose
`messages` value, when present, is a sized value), malformed entries —
undecodable lines, and entries whose `messages` field is missing or
has fewer than 3 turns — are skipped without aborting, and the loader
returns exactly the valid entries, in input order.  A decoded entry on
which the check raises (e.g. a bare number) instead aborts the whole
load with an empty result, as the counterexample shows. -/
theorem c10_example_loader_amended (decode : List Char → Option PyVal)
    (lines : List (List Char))
    (h : ∀ l ∈ lines, ∀ ex, decode (pyStrip l) = some ex →
      checkMessages ex ≠ CheckRes.raised) :
    load_examples_from_jsonl decode lines =
      lines.filterMap (exampleKeep decode) := by
  have hgo := loadGo_noraise decode lines [] h
  simpa [load_examples_from_jsonl] using hgo

/-- C10 witness: an object entry without `messages` followed by a
valid entry — the malformed entry is skipped and the valid entry is
loaded. -/
theorem c10_example_loader_witness :
    load_examples_from_jsonl decodeSkip ["m".toList, "v".toList] =
      [exValid] := by
  have h := c10_example_loader_amended decodeSkip ["m".toList, "v".toList] ?_
  · exact h.trans rfl
  · intro l hl ex hd
    simp only [List.mem_cons, List.not_mem_nil, or_false] at hl
    rcases hl with rfl | rfl
    · rw [show decodeSkip (pyStrip ("m".toList)) = some exNoMsgs from rfl] at hd
      injection hd with hex
      subst hex
      decide
    · rw [show decodeSkip (pyStrip ("v".toList)) = some exValid from rfl] at hd
      injection hd with hex
      subst hex
      decide
